import Mathlib

/-!
Verification development for the PDF chat application.

The definitions below are shallow embeddings of the program's core logic:

* `extractHtml` embeds `extractHtml` from `src/components/ChatInterface.tsx`
  (lines 21-40): it locates the first occurrence of the marker "```html",
  skips the greedy `\s*` whitespace run after it, and then looks for the
  first "```" from that point on; a found fence yields a closed result, an
  absent fence yields the open (streaming) remainder.
  Strings are modelled as `List Char`; the JS regex class `\s` is modelled
  by `wsChar`, covering the ASCII whitespace characters (the remaining
  Unicode members of `\s` do not occur in any input considered here).

* `stripHtmlBlock` embeds the HTML-block removal in `MessageBubble`
  (`src/components/ChatInterface.tsx` lines 122-143): under the
  truthiness guard `if (htmlContent)` (the stripping only runs when
  `extractHtml` returned a non-null, non-empty string), first
  `replace(/```html[\s\S]*?```/, '')` (remove the first closed block), then
  truncation at a remaining unterminated "```html" marker.

* `resolveFilePart` embeds the per-attachment branch of `streamMessage`
  (`src/constants.tsx` lines 190-232).  The JS computation
  `sizeMB = data.length * 0.75 / 1024 / 1024` is exact binary floating
  point for every relevant length (0.75 = 3/4 and the divisors are powers
  of two, so no rounding occurs), hence `sizeMB > 9` is exactly
  `3 * len > 9 * 4194304` and `sizeMB < 18` is exactly
  `3 * len < 18 * 4194304`; the model uses those integer comparisons.

* `streamMessage` embeds the retry loop of `streamMessage`
  (`src/constants.tsx` lines 181-293) as a function of a script: one entry
  per attempt, giving the chunks the attempt yields before it either
  finishes (`ok`) or throws (`err transient`), where `transient` abstracts
  the network-unreachable / 503 / 500 / 429 classification of the catch
  block.

* `executePlan` embeds the step loop of `executePlan`
  (`src/components/PlanPreview.tsx` lines 354-419) as a function of the
  per-step outcomes.

* `handleSendMessage` embeds the streaming consumption loop of
  `handleSendMessage` (`src/components/PlanPreview.tsx` lines 270-352)
  together with `stopGeneration` (lines 187-200), driven by an ordered
  event list (deltas and stop clicks); the single-threaded JS event loop
  makes this ordering deterministic.  Display throttling only affects
  which intermediate snapshots are shown; the model applies every update
  (the final post-loop update overwrites the text field regardless).
-/

/-- ASCII whitespace as matched by the JS regex class `\s`
(space, tab, newline, carriage return, vertical tab, form feed). -/
def wsChar (c : Char) : Bool :=
  c == ' ' || c == '\t' || c == '\n' || c == '\r' ||
  c == Char.ofNat 11 || c == Char.ofNat 12

/-- Length of the maximal leading whitespace run (the greedy `\s*`). -/
def skipWS : List Char → Nat
  | [] => 0
  | c :: rest => if wsChar c then skipWS rest + 1 else 0

/-- Index of the first occurrence of `pat` in `s` (JS `String.indexOf`
restricted to the substring, `String.match` with a literal-prefixed
regex). -/
def findSub (pat : List Char) : List Char → Option Nat
  | [] => none
  | c :: rest =>
    if pat.isPrefixOf (c :: rest) then some 0
    else (findSub pat rest).map (· + 1)

/-- The fence-open marker scanned for by `extractHtml`. -/
def openMarker : List Char := "```html".data

/-- The closing fence marker. -/
def fence : List Char := "```".data

/-- The spec's ExtractionResult: block content plus whether the closing
fence was found. -/
structure ExtractionResult where
  content : List Char
  closed : Bool
deriving DecidableEq

/-- `contentStartIndex` of `extractHtml`: position right after the opening
marker and its trailing whitespace run. -/
def contentStartIdx (text : List Char) (i : Nat) : Nat :=
  i + openMarker.length + skipWS (text.drop (i + openMarker.length))

/-- The body of `extractHtml` after the opening marker was located:
search for the closing fence from `cs`; found gives the closed substring,
absent gives the open remainder. -/
def extractFrom (text : List Char) (cs : Nat) : ExtractionResult :=
  match findSub fence (text.drop cs) with
  | none => ⟨text.drop cs, false⟩
  | some j => ⟨(text.drop cs).take j, true⟩

/-- `extractHtml` from `src/components/ChatInterface.tsx` lines 21-40. -/
def extractHtml (text : List Char) : Option ExtractionResult :=
  (findSub openMarker text).map fun i => extractFrom text (contentStartIdx text i)

theorem findSub_isPrefix (pat : List Char) :
    ∀ (s : List Char) (i : Nat), findSub pat s = some i → pat <+: s.drop i := by
  intro s
  induction s with
  | nil => intro i h; simp [findSub] at h
  | cons a rest ih =>
    intro i h
    by_cases hp : pat.isPrefixOf (a :: rest)
    · simp only [findSub, if_pos hp] at h
      obtain rfl : (0 : Nat) = i := by injection h
      simpa using List.isPrefixOf_iff_prefix.mp hp
    · simp only [findSub, if_neg hp] at h
      cases hfr : findSub pat rest with
      | none => rw [hfr] at h; simp at h
      | some j =>
        rw [hfr] at h
        simp only [Option.map_some'] at h
        obtain rfl : j + 1 = i := by injection h
        simpa using ih j hfr

theorem findSub_lt_length (pat : List Char) :
    ∀ (s : List Char) (i : Nat), findSub pat s = some i → i < s.length := by
  intro s
  induction s with
  | nil => intro i h; simp [findSub] at h
  | cons a rest ih =>
    intro i h
    by_cases hp : pat.isPrefixOf (a :: rest)
    · simp only [findSub, if_pos hp] at h
      obtain rfl : (0 : Nat) = i := by injection h
      simp
    · simp only [findSub, if_neg hp] at h
      cases hfr : findSub pat rest with
      | none => rw [hfr] at h; simp at h
      | some j =>
        rw [hfr] at h
        simp only [Option.map_some'] at h
        obtain rfl : j + 1 = i := by injection h
        have := ih j hfr
        simp
        omega

/-- Appending to the text never moves an already-found first occurrence:
`findSub` is stable under appends.  This is the heart of the streaming
invariant: occurrences live entirely inside the old text, and no earlier
occurrence can appear since the old characters are unchanged. -/
theorem findSub_append (pat : List Char) :
    ∀ (s d : List Char) (i : Nat),
      findSub pat s = some i → findSub pat (s ++ d) = some i := by
  intro s
  induction s with
  | nil => intro d i h; simp [findSub] at h
  | cons a rest ih =>
    intro d i h
    by_cases hp : pat.isPrefixOf (a :: rest)
    · simp only [findSub, if_pos hp] at h
      obtain rfl : (0 : Nat) = i := by injection h
      have hpre : pat <+: a :: (rest ++ d) := by
        have h1 := List.isPrefixOf_iff_prefix.mp hp
        have h2 : (a :: rest) <+: a :: (rest ++ d) := by
          rw [← List.cons_append]
          exact List.prefix_append _ _
        exact h1.trans h2
      simp [findSub, List.isPrefixOf_iff_prefix.mpr hpre]
    · simp only [findSub, if_neg hp] at h
      cases hfr : findSub pat rest with
      | none => rw [hfr] at h; simp at h
      | some j =>
        rw [hfr] at h
        simp only [Option.map_some'] at h
        obtain rfl : j + 1 = i := by injection h
        have hocc := findSub_isPrefix pat rest j hfr
        have hjlt := findSub_lt_length pat rest j hfr
        have hlen : pat.length ≤ rest.length := by
          have h1 := hocc.length_le
          simp only [List.length_drop] at h1
          omega
        have hnp : ¬ pat <+: a :: (rest ++ d) := by
          intro hcontr
          have h1 : pat <+: (a :: rest) ++ d := by
            rw [List.cons_append]
            exact hcontr
          have h2 : pat <+: a :: rest :=
            List.prefix_of_prefix_length_le h1 ( List.prefix_append _ _)
              (by simp; omega)
          exact hp (List.isPrefixOf_iff_prefix.mpr h2)
        have hr := ih d j hfr
        simp [findSub, List.cons_append, hnp, hr]

theorem skipWS_le_length (s : List Char) : skipWS s ≤ s.length := by
  induction s with
  | nil => simp [skipWS]
  | cons c rest ih =>
    by_cases hc : wsChar c
    · simp [skipWS, hc]; omega
    · simp [skipWS, hc]

/-- If the whitespace run stops strictly inside the text, appending does
not change it. -/
theorem skipWS_append_of_lt (s d : List Char) (h : skipWS s < s.length) :
    skipWS (s ++ d) = skipWS s := by
  induction s with
  | nil => simp [skipWS] at h
  | cons c rest ih =>
    by_cases hc : wsChar c
    · simp only [skipWS, if_pos hc, List.cons_append, List.length_cons] at h ⊢
      exact congrArg (· + 1) (ih (by omega))
    · simp [skipWS, hc]

theorem extractFrom_of_none {text : List Char} {cs : Nat}
    (h : findSub fence (text.drop cs) = none) :
    extractFrom text cs = ⟨text.drop cs, false⟩ := by
  unfold extractFrom
  rw [h]

theorem extractFrom_of_some {text : List Char} {cs j : Nat}
    (h : findSub fence (text.drop cs) = some j) :
    extractFrom text cs = ⟨(text.drop cs).take j, true⟩ := by
  unfold extractFrom
  rw [h]

theorem extractHtml_of_find {text : List Char} {i : Nat}
    (h : findSub openMarker text = some i) :
    extractHtml text = some (extractFrom text (contentStartIdx text i)) := by
  unfold extractHtml
  rw [h]
  rfl

/-- C1: for a text built by appends only, while the extracted html block is
still unclosed the returned content only ever grows (each later open result
extends the earlier one as a prefix), and once the result is closed it stays
closed with identical content under every further append — so the
open-to-closed transition happens at most once and the closed content is
stable.  Stated for one append `d`, which covers every pair of snapshots of
a growing text. -/
theorem c1_extract_monotone (s d c : List Char) (b : Bool)
    (h : extractHtml s = some ⟨c, b⟩) :
    ∃ c' b', extractHtml (s ++ d) = some ⟨c', b'⟩ ∧
      (b = true → c' = c ∧ b' = true) ∧
      (b' = false → c <+: c') := by
  obtain ⟨i, hf⟩ : ∃ i, findSub openMarker s = some i := by
    cases hfo : findSub openMarker s with
    | none => unfold extractHtml at h; rw [hfo] at h; simp at h
    | some i => exact ⟨i, rfl⟩
  have hres : extractFrom s (contentStartIdx s i) = ⟨c, b⟩ := by
    rw [extractHtml_of_find hf] at h
    exact Option.some.inj h
  have hf' : findSub openMarker (s ++ d) = some i := findSub_append openMarker s d i hf
  have hgoal : extractHtml (s ++ d) =
      some (extractFrom (s ++ d) (contentStartIdx (s ++ d) i)) := extractHtml_of_find hf'
  have hiL : i + openMarker.length ≤ s.length := by
    have h1 := (findSub_isPrefix openMarker s i hf).length_le
    have h2 := findSub_lt_length openMarker s i hf
    simp only [List.length_drop] at h1
    have h3 : openMarker.length = 7 := by decide
    omega
  have hdropA : (s ++ d).drop (i + openMarker.length) =
      s.drop (i + openMarker.length) ++ d :=
    List.drop_append_of_le_length hiL
  by_cases hw : skipWS (s.drop (i + openMarker.length)) <
      (s.drop (i + openMarker.length)).length
  · -- the whitespace run stops inside s: the content start is unchanged
    have hws : skipWS ((s ++ d).drop (i + openMarker.length)) =
        skipWS (s.drop (i + openMarker.length)) := by
      rw [hdropA]
      exact skipWS_append_of_lt _ _ hw
    have hcs' : contentStartIdx (s ++ d) i = contentStartIdx s i := by
      unfold contentStartIdx
      rw [hws]
    have hcsL : contentStartIdx s i ≤ s.length := by
      unfold contentStartIdx
      simp only [List.length_drop] at hw
      omega
    have hdropCS : (s ++ d).drop (contentStartIdx s i) =
        s.drop (contentStartIdx s i) ++ d :=
      List.drop_append_of_le_length hcsL
    cases hfence : findSub fence (s.drop (contentStartIdx s i)) with
    | some j =>
      -- already closed in s: the closing fence index is stable, content identical
      rw [extractFrom_of_some hfence] at hres
      simp only [ExtractionResult.mk.injEq] at hres
      obtain ⟨hc, hb⟩ := hres
      have hj : j ≤ (s.drop (contentStartIdx s i)).length :=
        le_of_lt (findSub_lt_length fence _ j hfence)
      have hfence' : findSub fence ((s ++ d).drop (contentStartIdx s i)) = some j := by
        rw [hdropCS]
        exact findSub_append fence _ d j hfence
      have hext' : extractFrom (s ++ d) (contentStartIdx s i) =
          ⟨(s.drop (contentStartIdx s i)).take j, true⟩ := by
        rw [extractFrom_of_some hfence', hdropCS, List.take_append_of_le_length hj]
      refine ⟨c, true, ?_, fun _ => ⟨rfl, rfl⟩, ?_⟩
      · rw [hgoal, hcs', hext', hc]
      · intro hb'
        simp at hb'
    | none =>
      -- still open in s: the open content is the tail from the content start
      rw [extractFrom_of_none hfence] at hres
      simp only [ExtractionResult.mk.injEq] at hres
      obtain ⟨hc, hb⟩ := hres
      cases hfd : findSub fence ((s ++ d).drop (contentStartIdx s i)) with
      | none =>
        refine ⟨s.drop (contentStartIdx s i) ++ d, false, ?_, ?_, ?_⟩
        · rw [hgoal, hcs', extractFrom_of_none hfd, hdropCS]
        · intro hb'
          rw [← hb] at hb'
          simp at hb'
        · intro _
          rw [← hc]
          exact List.prefix_append _ _
      | some j' =>
        refine ⟨((s ++ d).drop (contentStartIdx s i)).take j', true, ?_, ?_, ?_⟩
        · rw [hgoal, hcs', extractFrom_of_some hfd]
        · intro hb'
          rw [← hb] at hb'
          simp at hb'
        · intro hb'
          simp at hb'
  · -- the whitespace run reaches the end of s: the open content was empty
    have hwe : skipWS (s.drop (i + openMarker.length)) =
        (s.drop (i + openMarker.length)).length := by
      have := skipWS_le_length (s.drop (i + openMarker.length))
      omega
    have hnil : s.drop (contentStartIdx s i) = [] := by
      apply List.drop_eq_nil_of_le
      unfold contentStartIdx
      rw [hwe]
      simp only [List.length_drop]
      omega
    have heq : extractFrom s (contentStartIdx s i) = ⟨[], false⟩ := by
      rw [extractFrom_of_none (by rw [hnil]; rfl), hnil]
    rw [heq] at hres
    simp only [ExtractionResult.mk.injEq] at hres
    obtain ⟨hc, hb⟩ := hres
    cases hfd : findSub fence ((s ++ d).drop (contentStartIdx (s ++ d) i)) with
    | none =>
      refine ⟨(s ++ d).drop (contentStartIdx (s ++ d) i), false, ?_, ?_, ?_⟩
      · rw [hgoal, extractFrom_of_none hfd]
      · intro hb'
        rw [← hb] at hb'
        simp at hb'
      · intro _
        rw [← hc]
        exact List.nil_prefix
    | some j' =>
      refine ⟨((s ++ d).drop (contentStartIdx (s ++ d) i)).take j', true, ?_, ?_, ?_⟩
      · rw [hgoal, extractFrom_of_some hfd]
      · intro hb'
        rw [← hb] at hb'
        simp at hb'
      · intro hb'
        simp at hb'

/-- Witness for C1 at a concrete growing text: snapshot "x```htmlab"
(open, content "ab") extended by "cd". -/
theorem c1_extract_monotone_witness :
    ∃ c' b', extractHtml ("x```htmlab".data ++ "cd".data) = some ⟨c', b'⟩ ∧
      (false = true → c' = "ab".data ∧ b' = true) ∧
      (b' = false → "ab".data <+: c') :=
  c1_extract_monotone "x```htmlab".data "cd".data "ab".data false (by decide)

/-- C7 counterexample: on the fully closed input the code does NOT trim the
whitespace before the closing fence — the extracted content is
"<p>hi</p> " (trailing space), not the claimed "<p>hi</p>".  The regex
`/```html\s*/` only skips whitespace after the opening marker; the
substring runs up to the closing fence index with no trimming. -/
theorem c7_counterexample :
    extractHtml "abc ```html <p>hi</p> ``` def".data ≠
      some ⟨"<p>hi</p>".data, true⟩ ∧
    extractHtml "abc ```html <p>hi</p> ``` def".data =
      some ⟨"<p>hi</p> ".data, true⟩ := by
  constructor
  · decide
  · decide

/-- C7 amended: extracting from the fully closed input
"abc ```html <p>hi</p> ``` def" returns content "<p>hi</p> " — the
whitespace after the opening fence is skipped but the whitespace before
the closing fence is kept — with closed=true; extracting from the
streaming prefix "abc ```html <p>hi" returns content "<p>hi" with
closed=false. -/
theorem c7_amended :
    extractHtml "abc ```html <p>hi</p> ``` def".data =
      some ⟨"<p>hi</p> ".data, true⟩ ∧
    extractHtml "abc ```html <p>hi".data = some ⟨"<p>hi".data, false⟩ := by
  constructor
  · decide
  · decide

/-- The kind of request part pushed for one attachment. -/
inductive FilePart where
  | inlineData
  | fileData
deriving DecidableEq

/-- The error thrown when the out-of-band upload failed and the file is
too large for the inline fallback (src/constants.tsx line 220). -/
def uploadFailedTooLargeMsg : String :=
  "File upload failed and file is too large for inline fallback"

/-- Per-attachment resolution inside `streamMessage`
(src/constants.tsx lines 190-232).  `len` is `file.data.length` (base64
characters) and `uploadOk` is whether `uploadToGemini` succeeds.  The JS
conditions `sizeMB > 9` and `sizeMB < 18` with
`sizeMB = len * 0.75 / 1024 / 1024` are exactly the integer comparisons
`3 * len > 9 * 4194304` and `3 * len < 18 * 4194304` (the float
computation is exact, see the header comment). -/
def resolveFilePart (len : Nat) (uploadOk : Bool) : Except String FilePart :=
  if 9 * 4194304 < 3 * len then
    if uploadOk then Except.ok FilePart.fileData
    else if 3 * len < 18 * 4194304 then Except.ok FilePart.inlineData
    else Except.error uploadFailedTooLargeMsg
  else Except.ok FilePart.inlineData

/-- C3 counterexample: an attachment whose estimated decoded size is
exactly 9 MB (base64 length 12582912, so 3·len = 9·4194304 exactly) is
embedded inline even though registration would succeed — the code uses a
strict `sizeMB > 9` comparison, so "at or above the threshold is
registered out-of-band" fails at the boundary. -/
theorem c3_counterexample :
    3 * 12582912 = 9 * 4194304 ∧
    resolveFilePart 12582912 true = Except.ok FilePart.inlineData ∧
    resolveFilePart 12582912 true ≠ Except.ok FilePart.fileData := by
  refine ⟨by decide, rfl, ?_⟩
  intro h
  rw [show resolveFilePart 12582912 true = Except.ok FilePart.inlineData from rfl] at h
  exact FilePart.noConfusion (Except.ok.inj h)

/-- C3 amended: an attachment at or BELOW the 9 MB threshold is embedded
inline; strictly above it is registered out-of-band and referenced by
URI; if registration fails and the size is strictly below the 18 MB hard
ceiling it falls back to inline embedding; if registration fails at or
above the hard ceiling the exchange fails immediately with the
attachment-too-large error and no inline attempt is made. -/
theorem c3_amended (len : Nat) (uploadOk : Bool) :
    (3 * len ≤ 9 * 4194304 →
      resolveFilePart len uploadOk = Except.ok FilePart.inlineData) ∧
    (9 * 4194304 < 3 * len → uploadOk = true →
      resolveFilePart len uploadOk = Except.ok FilePart.fileData) ∧
    (9 * 4194304 < 3 * len → 3 * len < 18 * 4194304 →
      resolveFilePart len false = Except.ok FilePart.inlineData) ∧
    (18 * 4194304 ≤ 3 * len →
      resolveFilePart len false = Except.error uploadFailedTooLargeMsg) := by
  refine ⟨?_, ?_, ?_, ?_⟩
  · intro h
    rw [resolveFilePart, if_neg (by omega)]
  · intro h hu
    subst hu
    rw [resolveFilePart, if_pos h]
    rfl
  · intro h h18
    rw [resolveFilePart, if_pos h]
    simp only [Bool.false_eq_true, if_false]
    rw [if_pos h18]
  · intro h
    rw [resolveFilePart, if_pos (by omega)]
    simp only [Bool.false_eq_true, if_false]
    rw [if_neg (by omega)]

/-- Witness for C3 amended: a tiny attachment is inlined; a length-20000000
base64 payload (≈14.3 MB decoded, between the 9 MB threshold and the
18 MB ceiling) is registered when upload succeeds and falls back to
inline when it fails; a length-40000000 payload (≈28.6 MB) with a failed
upload raises the attachment-too-large error. -/
theorem c3_amended_witness :
    resolveFilePart 1000 true = Except.ok FilePart.inlineData ∧
    resolveFilePart 20000000 true = Except.ok FilePart.fileData ∧
    resolveFilePart 20000000 false = Except.ok FilePart.inlineData ∧
    resolveFilePart 40000000 false = Except.error uploadFailedTooLargeMsg :=
  ⟨(c3_amended 1000 true).1 (by decide),
   (c3_amended 20000000 true).2.1 (by decide) rfl,
   (c3_amended 20000000 false).2.2.1 (by decide) (by decide),
   (c3_amended 40000000 false).2.2.2 (by decide)⟩

/- ------------------------------------------------------------------ -/
/- Retry loop of streamMessage (src/constants.tsx 181-293)             -/
/- ------------------------------------------------------------------ -/

/-- How one attempt of `streamMessage` ends: the stream finishes, or it
throws.  `transient` abstracts the catch block's classification
`isNetworkError || isServerError` (network-unreachable, 503/500/429). -/
inductive AttemptEnd where
  | ok
  | err (transient : Bool)
deriving DecidableEq

/-- Script for one attempt: the text deltas it yields before ending. -/
structure AttemptScript where
  chunks : List (List Char)
  ending : AttemptEnd
deriving DecidableEq

/-- `maxAttempts` of `streamMessage` (src/constants.tsx line 182). -/
def maxAttempts : Nat := 3

/-- Observable outcome of one `streamMessage` call: every delta yielded to
the caller (across all attempts, in order), the backoff delays awaited
in ms, whether the call returned normally, and how many attempts ran. -/
structure StreamRun where
  yielded : List (List Char)
  delays : List Nat
  succeeded : Bool
  attempts : Nat
deriving DecidableEq

/-- The retry loop of `streamMessage` (src/constants.tsx lines 184-293):
each iteration consumes one attempt script, yielding its chunks; on `ok`
the generator returns; on a throw the attempt counter is incremented and
the loop retries after `delay(1000 * attempt)` exactly when the error is
transient and attempts remain, otherwise the (final) error surfaces. -/
def streamMessage : List AttemptScript → Nat → List (List Char) → List Nat → StreamRun
  | [], attempt, ys, ds => ⟨ys, ds, false, attempt⟩
  | s :: rest, attempt, ys, ds =>
    match s.ending with
    | AttemptEnd.ok => ⟨ys ++ s.chunks, ds, true, attempt + 1⟩
    | AttemptEnd.err tr =>
      if tr ∧ attempt + 1 < maxAttempts then
        streamMessage rest (attempt + 1) (ys ++ s.chunks) (ds ++ [1000 * (attempt + 1)])
      else ⟨ys ++ s.chunks, ds, false, attempt + 1⟩

theorem streamMessage_attempts_le (scripts : List AttemptScript) :
    ∀ (a : Nat) (ys : List (List Char)) (ds : List Nat), a < maxAttempts →
      (streamMessage scripts a ys ds).attempts ≤ maxAttempts := by
  induction scripts with
  | nil =>
    intro a ys ds h
    simp [streamMessage]
    omega
  | cons s rest ih =>
    intro a ys ds h
    cases hse : s.ending with
    | ok => simp [streamMessage, hse]; omega
    | err tr =>
      by_cases hc : tr ∧ a + 1 < maxAttempts
      · simp only [streamMessage, hse, if_pos hc]
        exact ih (a + 1) _ _ hc.2
      · simp only [streamMessage, hse, if_neg hc]
        simp [maxAttempts] at h ⊢
        omega

/-- C4: transient failures are retried up to 3 total attempts with
linearly increasing backoff of attempt-index seconds, and only the final
failure surfaces.  Conjuncts: (1) two overloaded attempts followed by a
success give exactly 3 attempts, backoffs of 1s then 2s, and a successful
result with no error surfaced; (2) three transient failures surface one
single final failure after 3 attempts and the same two backoffs; (3) an
error outside the transient classes is never retried — it surfaces
immediately after its own attempt with no backoff added, whatever the
attempt counter; (4) no call ever runs more than 3 attempts. -/
theorem c4_retry_policy :
    (streamMessage [⟨[], AttemptEnd.err true⟩, ⟨[], AttemptEnd.err true⟩,
        ⟨[], AttemptEnd.ok⟩] 0 [] [] = ⟨[], [1000, 2000], true, 3⟩) ∧
    (streamMessage [⟨[], AttemptEnd.err true⟩, ⟨[], AttemptEnd.err true⟩,
        ⟨[], AttemptEnd.err true⟩] 0 [] [] = ⟨[], [1000, 2000], false, 3⟩) ∧
    (∀ (cs : List (List Char)) (rest : List AttemptScript) (a : Nat)
        (ys : List (List Char)) (ds : List Nat),
      streamMessage (⟨cs, AttemptEnd.err false⟩ :: rest) a ys ds =
        ⟨ys ++ cs, ds, false, a + 1⟩) ∧
    (∀ scripts : List AttemptScript,
      (streamMessage scripts 0 [] []).attempts ≤ maxAttempts) := by
  refine ⟨by decide, by decide, ?_, ?_⟩
  · intro cs rest a ys ds
    simp [streamMessage]
  · intro scripts
    exact streamMessage_attempts_le scripts 0 [] [] (by decide)

/-- C10: when an attempt throws a transient error after already yielding
some deltas, the fresh attempt yields the new response from its beginning
and nothing is retracted: one call yields the first attempt's partial
chunks followed by the whole second response, so the caller's accumulated
text is the concatenation of a partial response and a complete re-sent
response — the exchange is not atomic across retries. -/
theorem c10_retry_not_atomic (cs1 cs2 : List (List Char)) :
    streamMessage [⟨cs1, AttemptEnd.err true⟩, ⟨cs2, AttemptEnd.ok⟩] 0 [] [] =
      ⟨cs1 ++ cs2, [1000], true, 2⟩ ∧
    (cs1 ++ cs2).flatten = cs1.flatten ++ cs2.flatten := by
  constructor
  · simp [streamMessage, maxAttempts]
  · exact List.flatten_append cs1 cs2

/- ------------------------------------------------------------------ -/
/- Plan execution (executePlan, src/components/PlanPreview.tsx 354-419)-/
/- ------------------------------------------------------------------ -/

/-- `AppState` from `src/types.ts` line 42. -/
inductive AppState where
  | idle
  | planning
  | waiting_approval
  | executing
  | completed
deriving DecidableEq, BEq

/-- Outcome of one plan step's exchange: the awaited stream either
finishes normally or throws. -/
inductive StepOutcome where
  | ok
  | fail
deriving DecidableEq

/-- Final state of the transcript message created for one plan step
(its index is 1-based as displayed; `isStreaming` is false in every
final state, so only the error flag is recorded). -/
structure StepEntry where
  stepIndex : Nat
  isError : Bool
deriving DecidableEq

/-- Observable result of `executePlan`: the step messages appended to the
transcript in order, the final `appState`, the final `executionStep`
counter, and whether `currentPlan` was cleared (set to null). -/
structure PlanRunResult where
  transcript : List StepEntry
  finalState : AppState
  executionStep : Nat
  planCleared : Bool
deriving DecidableEq

/-- The step loop of `executePlan` (src/components/PlanPreview.tsx lines
361-418), driven by the per-step outcomes, with the 1-based index of the
current step.  A successful step finalizes its message (isStreaming
false, no error) and continues; a failing step marks its message as
errored, sets state to idle and returns — `executionStep` keeps its
value and the plan is NOT cleared on this path.  When the loop finishes
all steps, state becomes `completed`, `executionStep` is reset to 0 and
the plan is cleared.  (The loop's abort checks read
`abortControllerRef.current?.signal.aborted`; they are modelled in
`handleSendMessage` below and never fire in a run without a stop click.) -/
def executePlanAux : List StepOutcome → Nat → PlanRunResult
  | [], _ => ⟨[], AppState.completed, 0, true⟩
  | StepOutcome.ok :: rest, i =>
    let r := executePlanAux rest (i + 1)
    ⟨⟨i, false⟩ :: r.transcript, r.finalState, r.executionStep, r.planCleared⟩
  | StepOutcome.fail :: _, i => ⟨[⟨i, true⟩], AppState.idle, i, false⟩

/-- `executePlan` run from the first step. -/
def executePlan (outcomes : List StepOutcome) : PlanRunResult :=
  executePlanAux outcomes 1

/-- The transcript entries of `n` consecutive successful steps starting
at 1-based index `k`. -/
def okEntries : Nat → Nat → List StepEntry
  | _, 0 => []
  | k, n + 1 => ⟨k, false⟩ :: okEntries (k + 1) n

theorem executePlanAux_fail (pre post : List StepOutcome) :
    ∀ (k : Nat), (∀ x ∈ pre, x = StepOutcome.ok) →
      executePlanAux (pre ++ StepOutcome.fail :: post) k =
        ⟨okEntries k pre.length ++ [⟨k + pre.length, true⟩],
         AppState.idle, k + pre.length, false⟩ := by
  induction pre with
  | nil =>
    intro k _
    simp [executePlanAux, okEntries]
  | cons o pre ih =>
    intro k h
    have ho : o = StepOutcome.ok := h o (by simp)
    subst ho
    have h' : ∀ x ∈ pre, x = StepOutcome.ok := fun x hx => h x (by simp [hx])
    simp only [List.cons_append, executePlanAux, List.append_eq]
    rw [ih (k + 1) h']
    simp only [okEntries, List.length_cons]
    have harith : k + 1 + pre.length = k + (pre.length + 1) := by omega
    rw [harith]
    simp

/-- C2: a failure on any step halts all remaining steps (the result does
not depend on the outcomes scripted after the failing step), marks that
step's transcript message as errored, returns the state to idle, and
leaves the messages of the already-completed steps as successful,
unmodified entries: for `pre.length` successful steps followed by a
failure, the transcript holds exactly `pre.length + 1` step entries —
the successful ones numbered from 1 and one errored entry — and in
particular a 3-step plan failing on step 2 yields exactly the entries
for steps 1 (successful) and 2 (errored) with step 3 never started. -/
theorem c2_step_failure (pre post : List StepOutcome)
    (h : ∀ x ∈ pre, x = StepOutcome.ok) :
    executePlan (pre ++ StepOutcome.fail :: post) =
      ⟨okEntries 1 pre.length ++ [⟨1 + pre.length, true⟩],
       AppState.idle, 1 + pre.length, false⟩ ∧
    (executePlan (pre ++ StepOutcome.fail :: post)).transcript.length =
      pre.length + 1 :=
  have h1 := executePlanAux_fail pre post 1 h
  ⟨h1, by
    rw [executePlan, h1]
    simp only [List.length_append, List.length_cons, List.length_nil]
    have hlen : ∀ n k, (okEntries k n).length = n := by
      intro n
      induction n with
      | zero => intro k; rfl
      | succ m ih => intro k; simp [okEntries, ih]
    rw [hlen]⟩

/-- Witness for C2: the 3-step plan with a failure on step 2 — exactly
two entries, step 1 successful and step 2 errored, state idle, step 3's
scripted outcome irrelevant. -/
theorem c2_step_failure_witness :
    executePlan [StepOutcome.ok, StepOutcome.fail, StepOutcome.ok] =
      ⟨okEntries 1 1 ++ [⟨1 + 1, true⟩], AppState.idle, 1 + 1, false⟩ ∧
    (executePlan [StepOutcome.ok, StepOutcome.fail, StepOutcome.ok]).transcript.length =
      1 + 1 :=
  c2_step_failure [StepOutcome.ok] [StepOutcome.ok] (by decide)

/- ------------------------------------------------------------------ -/
/- UI send guards (src/components/PlanPreview.tsx 270-275, 427-432,    -/
/- 494-557)                                                            -/
/- ------------------------------------------------------------------ -/

/-- The early-return guard of `handleSendMessage` (lines 271-275): the
send is refused iff the trimmed text is empty, the state is `executing`,
or no files are uploaded.  `handleKeyDown` (lines 427-432) calls
`handleSendMessage` on Enter with no state check of its own. -/
def sendRefused (st : AppState) (textNonempty filesNonempty : Bool) : Bool :=
  !textNonempty || (st == AppState.executing) || !filesNonempty

/-- The `disabled` condition of the chat textarea (line 526). -/
def textareaDisabled (st : AppState) (filesNonempty : Bool) : Bool :=
  !filesNonempty ||
    (!(st == AppState.idle) && !(st == AppState.planning) &&
     !(st == AppState.executing))

/-- The `disabled` condition of the send button (line 544). -/
def sendButtonDisabled (st : AppState) (inputNonempty filesNonempty : Bool) : Bool :=
  !inputNonempty || !filesNonempty || !(st == AppState.idle)

/-- C5 (code bug evidence): after the last plan step succeeds, the code
sets the state to `completed`, resets the step counter and clears the
plan, but never transitions to `idle`: `completed` is a terminal,
non-idle state in which both the textarea and the send button are
disabled, so no new request can be sent — contradicting the claim that
the state immediately becomes idle, ready for a new request. -/
theorem c5_completed_not_idle :
    executePlan [StepOutcome.ok] =
      ⟨[⟨1, false⟩], AppState.completed, 0, true⟩ ∧
    AppState.completed ≠ AppState.idle ∧
    textareaDisabled AppState.completed true = true ∧
    sendButtonDisabled AppState.completed true true = true := by
  refine ⟨?_, ?_, ?_, ?_⟩ <;> decide

/-- C9 (code bug evidence): while the state is `planning` — an exchange
is in flight — the textarea is still enabled and `handleSendMessage`'s
guard (which only checks for `executing`) does not refuse, so pressing
Enter starts a second concurrent exchange even though the state is not
idle, contradicting "a new send is refused whenever the session state is
not idle" (and with it the at-most-one-isStreaming-message invariant). -/
theorem c9_send_during_planning :
    sendRefused AppState.planning true true = false ∧
    textareaDisabled AppState.planning true = false ∧
    AppState.planning ≠ AppState.idle := by
  refine ⟨?_, ?_, ?_⟩ <;> decide

/- ------------------------------------------------------------------ -/
/- Cancellation (stopGeneration + handleSendMessage loop,              -/
/- src/components/PlanPreview.tsx 187-200 and 270-352)                 -/
/- ------------------------------------------------------------------ -/

/-- An event in the streaming consumption of one exchange: a delta
arriving from the stream, or the user clicking the stop button
(`stopGeneration` runs synchronously between two delta receipts on the
single-threaded JS event loop). -/
inductive StreamEvent where
  | delta (s : List Char)
  | stopClick
deriving DecidableEq

/-- The mutable state touched by `handleSendMessage` and
`stopGeneration`: whether `abortControllerRef.current` is non-null,
whether the (possibly discarded) controller's signal is aborted, whether
the `for await` loop has exited via `break`, the accumulated
`fullResponse`, the exchange's transcript message (`text`,
`isStreaming`), and how many deltas were appended. -/
structure SendState where
  refPresent : Bool
  aborted : Bool
  broken : Bool
  fullResponse : List Char
  msgText : List Char
  msgStreaming : Bool
  deltasConsumed : Nat
deriving DecidableEq

/-- The "[Stopped by User]" marker appended by `stopGeneration`
(src/components/PlanPreview.tsx line 196). -/
def stopMarker : List Char := "\n\n**[Stopped by User]**".data

/-- State at entry of the streaming loop: `handleSendMessage` installs a
fresh AbortController and appends a streaming model message. -/
def initSendState : SendState := ⟨true, false, false, [], [], true, 0⟩

/-- One event of the exchange.  `stopClick` is `stopGeneration` (lines
187-200): abort the controller AND null the ref, then append the stop
marker to the last streaming message and clear its streaming flag.
`delta` is one iteration of the `for await` loop (lines 296-306): it
breaks when `abortControllerRef.current?.signal.aborted` is true — which
requires the ref to still be present — else appends the chunk to
`fullResponse` and updates the message text (throttling only skips some
intermediate updates; the model applies each one, and the post-loop
update overwrites the text anyway). -/
def procSendEvent (st : SendState) (e : StreamEvent) : SendState :=
  match e with
  | StreamEvent.stopClick =>
    let st1 := if st.refPresent then
        { st with aborted := true, refPresent := false } else st
    if st1.msgStreaming then
      { st1 with msgText := st1.msgText ++ stopMarker, msgStreaming := false }
    else st1
  | StreamEvent.delta s =>
    if st.broken then st
    else if st.refPresent && st.aborted then { st with broken := true }
    else { st with fullResponse := st.fullResponse ++ s,
                   msgText := st.fullResponse ++ s,
                   deltasConsumed := st.deltasConsumed + 1 }

/-- `handleSendMessage`'s streaming phase over an event schedule: run the
loop, then the final update `text := fullResponse` (line 309), then — when
the aborted check (line 311) does not fire — clear the streaming flag. -/
def handleSendMessage (events : List StreamEvent) : SendState :=
  let st := events.foldl procSendEvent initSendState
  let st1 := { st with msgText := st.fullResponse }
  if st1.refPresent && st1.aborted then st1
  else { st1 with msgStreaming := false }

/-- C6 (code bug evidence): `stopGeneration` nulls `abortControllerRef`
right after aborting, so the loop's
`abortControllerRef.current?.signal.aborted` checks read `undefined` and
never fire: after a stop click following one delta, the two remaining
deltas are still consumed (3 in total, not 1), and the stop marker that
`stopGeneration` appended is overwritten by the later text updates — the
final transcript text is the full "Hello world" with no stop marker,
contradicting the claim that no further deltas are consumed and that the
partial text is retained with a stopped marker appended. -/
theorem c6_cancellation_ineffective :
    (handleSendMessage [StreamEvent.delta "Hello".data, StreamEvent.stopClick,
        StreamEvent.delta " wor".data, StreamEvent.delta "ld".data]).deltasConsumed
      = 3 ∧
    (handleSendMessage [StreamEvent.delta "Hello".data, StreamEvent.stopClick,
        StreamEvent.delta " wor".data, StreamEvent.delta "ld".data]).msgText
      = "Hello world".data ∧
    findSub stopMarker
      (handleSendMessage [StreamEvent.delta "Hello".data, StreamEvent.stopClick,
        StreamEvent.delta " wor".data, StreamEvent.delta "ld".data]).msgText
      = none ∧
    (handleSendMessage [StreamEvent.delta "Hello".data, StreamEvent.stopClick,
        StreamEvent.delta " wor".data, StreamEvent.delta "ld".data]).msgStreaming
      = false := by
  refine ⟨?_, ?_, ?_, ?_⟩ <;> decide
